import Mathlib

/-!
Verification of the inter-service resilience client of the
donation-management system.

The definitions below are a shallow embedding of the JavaScript source:

* `DonorServiceClient` in `src/donation-service/server.js` (circuit breaker
  fields lines 171-176, `_checkCircuit` lines 183-204, `_recordSuccess`
  lines 210-219, `_recordFailure` lines 225-233, `_retryWithBackoff`
  lines 243-259, `getDonor` lines 286-353, `getDonors` lines 397-480,
  `_chunkArray`, `_processDonorChunkIndividually` lines 505-522,
  `_fallbackToIndividualRequests` lines 531-568, `_createDefaultDonor`,
  `_createDefaultDonorMap`);
* `ReceiptServiceClient` in `src/unnamed/part_000` (same breaker/retry code,
  `getReceiptById` lines 241-296).

Stateful JavaScript (fields mutated on `this`) is modelled by explicit state
passing over `BreakerState`; `Date.now()` is passed in as an `Int` parameter;
a downstream HTTP attempt is modelled as a function from the attempt index to
`Except transportError (Option (Envelope payload))` where the `Option`
captures a missing `response.data` and `Envelope` the `{success, data}`
response body.  `axios` resolves (`.ok`) exactly on a 2xx response and
rejects (`.error`) on transport errors, timeouts and non-2xx statuses, so
one `Except` value per attempt is a faithful boundary.  Timer sleeps are
recorded as data (the list of delays) rather than performed.
-/

namespace DonationResilience

/-- Circuit breaker state names, from the comment `// CLOSED, OPEN, HALF_OPEN`
on `_circuitState`. -/
inductive CircuitState where
  | CLOSED
  | OPEN
  | HALF_OPEN
deriving DecidableEq, Repr

/-- The mutable circuit-breaker fields of a client
(`_circuitState`, `_failureCount`, `_lastFailureTime`);
`_lastFailureTime` is initialised to `null`, hence the `Option`. -/
structure BreakerState where
  circuitState : CircuitState
  failureCount : Nat
  lastFailureTime : Option Int
deriving DecidableEq, Repr

/-- `_failureThreshold` (5 in both clients). -/
def failureThreshold : Nat := 5

/-- `_resetTimeout` (30000 ms in both clients). -/
def resetTimeout : Int := 30000

/-- `maxRetries` of `DonorServiceClient` in `src/donation-service/server.js`. -/
def maxRetries : Nat := 2

/-- `maxRetries` of `ReceiptServiceClient` in `src/unnamed/part_000`. -/
def receiptMaxRetries : Nat := 3

/-- `retryDelay` (300 ms in both clients). -/
def retryDelay : Nat := 300

/-- The breaker fields as initialised in the source:
`'CLOSED'`, `0`, `null`. -/
def initialBreaker : BreakerState := ⟨.CLOSED, 0, none⟩

/-- `_checkCircuit()`.  Returns the boolean result together with the updated
breaker state.  In the `OPEN` branch the source computes
`now - this._lastFailureTime >= this._resetTimeout`; a `null`
`_lastFailureTime` coerces to `0` in the JavaScript subtraction, hence
`Option.getD 0`. -/
def checkCircuit (now : Int) (s : BreakerState) : Bool × BreakerState :=
  match s.circuitState with
  | .CLOSED => (true, s)
  | .OPEN =>
      if now - (s.lastFailureTime.getD 0) ≥ resetTimeout then
        (true, { s with circuitState := .HALF_OPEN })
      else
        (false, s)
  | .HALF_OPEN => (true, s)

/-- `_recordSuccess()`. -/
def recordSuccess (s : BreakerState) : BreakerState :=
  if s.circuitState = .HALF_OPEN then
    { s with circuitState := .CLOSED, failureCount := 0 }
  else if s.failureCount > 0 then
    { s with failureCount := 0 }
  else
    s

/-- `_recordFailure()`; `now` stands for the `Date.now()` read. -/
def recordFailure (now : Int) (s : BreakerState) : BreakerState :=
  let c := s.failureCount + 1
  if s.circuitState = .HALF_OPEN ∨ c ≥ failureThreshold then
    { circuitState := .OPEN, failureCount := c, lastFailureTime := some now }
  else
    { circuitState := s.circuitState, failureCount := c, lastFailureTime := some now }

/-- Observable trace of one `_retryWithBackoff` run: the final result, the
number of invocations of `fn`, and the list of sleeps performed. -/
structure RetryTrace (ε α : Type) where
  result : Except ε α
  attempts : Nat
  delays : List Nat
deriving Repr

/-- `_retryWithBackoff(fn, retries, delay)`, with the attempt sequence of
`fn` given by `op` (attempt index `k` yields `op k`).  Mirrors the source:
try `fn`; on rejection, if `retries <= 0` rethrow, else sleep `delay` and
recurse with `retries - 1` and `delay * 2`. -/
def retryAux (op : Nat → Except ε α) : Nat → Nat → Nat → RetryTrace ε α
  | retries, k, delay =>
    match op k with
    | .ok a => ⟨.ok a, 1, []⟩
    | .error e =>
        match retries with
        | 0 => ⟨.error e, 1, []⟩
        | r + 1 =>
            let t := retryAux op r (k + 1) (delay * 2)
            ⟨t.result, t.attempts + 1, delay :: t.delays⟩

/-- Entry point of `_retryWithBackoff`: first attempt has index 0. -/
def retryWithBackoff (op : Nat → Except ε α) (retries : Nat) (delay : Nat) :
    RetryTrace ε α :=
  retryAux op retries 0 delay

/-- The `{success: ..., data: ...}` response envelope; `data` is `Option`al
to model an absent/falsy payload field. -/
structure Envelope (α : Type) where
  success : Bool
  data : Option α
deriving DecidableEq, Repr

/-- The check `response.data && response.data.success && response.data.data`
performed by the clients after the retry loop; yields the payload exactly
when the envelope is structurally valid. -/
def validPayload : Option (Envelope α) → Option α
  | some env => if env.success then env.data else none
  | none => none

/-- A donor object as handled by `DonorServiceClient`; `defaultData` models
the `_defaultData` marker attached by `_createDefaultDonor` (absent, i.e.
`false`, on real downstream data).  The `_createdAt` ISO-timestamp string of
the default object is a pure wall-clock decoration and is not modelled. -/
structure Donor where
  id : String
  firstName : String
  lastName : String
  email : String
  phone : String
  defaultData : Bool := false
deriving DecidableEq, Repr

/-- `_createDefaultDonor(donorId)`. -/
def createDefaultDonor (id : String) : Donor :=
  { id := id
    firstName := "Unknown"
    lastName := "Donor"
    email := "unknown@example.com"
    phone := "+919999999999"
    defaultData := true }

/-- A receipt payload as returned by the receipt service; `defaultData`
models the `_defaultData` marker of `_createDefaultReceipt`. -/
structure Receipt where
  donationId : String
  status : String
  defaultData : Bool := false
deriving DecidableEq, Repr

/-- Result of one client call: the returned value, the breaker state after
the call, the number of outbound HTTP attempts performed, and whether the
call took the `_recordSuccess` path. -/
structure CallResult (α : Type) where
  value : α
  state : BreakerState
  attempts : Nat
  succeeded : Bool
deriving Repr

/-- `DonorServiceClient.getDonor(donorId, headers)`.  The headers are opaque
to the control flow and omitted.  Per the source: check the circuit (return
the default donor on denial, zero attempts); otherwise run the axios call
through `_retryWithBackoff`; a structurally valid response records success
and returns the payload; any terminal rejection or invalid shape records a
failure and returns the default donor.  Note the retried `fn` is only the
axios call: shape validation happens after the retry loop. -/
def getDonor (donorId : String) (op : Nat → Except String (Option (Envelope Donor)))
    (now : Int) (s : BreakerState) : CallResult Donor :=
  match checkCircuit now s with
  | (false, s1) => ⟨createDefaultDonor donorId, s1, 0, false⟩
  | (true, s1) =>
      let t := retryWithBackoff op maxRetries retryDelay
      match t.result with
      | .ok resp =>
          match validPayload resp with
          | some d => ⟨d, recordSuccess s1, t.attempts, true⟩
          | none => ⟨createDefaultDonor donorId, recordFailure now s1, t.attempts, false⟩
      | .error _ => ⟨createDefaultDonor donorId, recordFailure now s1, t.attempts, false⟩

/-- `ReceiptServiceClient.getReceiptById(receiptId, headers)` from
`src/unnamed/part_000`.  Identical control flow to `getDonor`, except that
the circuit-open short-circuit and every failure path return `null`
(modelled as `none`) instead of a default object, as the source and its doc
comment (`Receipt details or null if fetch fails`) state. -/
def getReceiptById (receiptId : String)
    (op : Nat → Except String (Option (Envelope Receipt)))
    (now : Int) (s : BreakerState) : CallResult (Option Receipt) :=
  match checkCircuit now s with
  | (false, s1) => ⟨none, s1, 0, false⟩
  | (true, s1) =>
      let t := retryWithBackoff op receiptMaxRetries retryDelay
      match t.result with
      | .ok resp =>
          match validPayload resp with
          | some r => ⟨some r, recordSuccess s1, t.attempts, true⟩
          | none => ⟨none, recordFailure now s1, t.attempts, false⟩
      | .error _ => ⟨none, recordFailure now s1, t.attempts, false⟩

/-- Helper for `[...new Set(donorIds)]`: keep the first occurrence of each
element; `seen` accumulates the elements already emitted. -/
def uniqueAux : List String → List String → List String
  | _, [] => []
  | seen, x :: xs =>
      if x ∈ seen then uniqueAux seen xs else x :: uniqueAux (x :: seen) xs

/-- `[...new Set(donorIds)]` in `getDonors`: order-preserving
de-duplication. -/
def uniqueFirst (l : List String) : List String :=
  uniqueAux [] l

/-- Fuel-indexed body of `_chunkArray`; the fuel is the list length, enough
for the `i += size` loop with `size ≥ 1`. -/
def chunkArrayAux : Nat → List α → Nat → List (List α)
  | 0, _, _ => []
  | _ + 1, [], _ => []
  | fuel + 1, x :: xs, size =>
      if size = 0 then []
      else (x :: xs).take size :: chunkArrayAux fuel ((x :: xs).drop size) size

/-- `_chunkArray(array, size)`.  The source loop `for (i = 0; i < length;
i += size)` never terminates for `size = 0`; both call sites pass the
constants 20 and 3, so the `size = 0` guard branch is never exercised. -/
def chunkArray (l : List α) (size : Nat) : List (List α) :=
  chunkArrayAux l.length l size

/-- The key list of the `donorMap` object (JavaScript `Object.keys`,
insertion order). -/
def mapKeys (m : List (String × Donor)) : List String :=
  m.map Prod.fst

/-- `donorMap[k] = v`: replace in place if the key exists, else append
(JavaScript object property assignment). -/
def mapPut (m : List (String × Donor)) (k : String) (v : Donor) :
    List (String × Donor) :=
  if k ∈ mapKeys m then
    m.map (fun p => if p.1 = k then (k, v) else p)
  else
    m ++ [(k, v)]

/-- `response.data.data.forEach(donor => donorMap[donor.id] = donor)`. -/
def putAll : List Donor → List (String × Donor) → List (String × Donor)
  | [], m => m
  | d :: ds, m => putAll ds (mapPut m d.id d)

/-- `_processDonorChunkIndividually(donorIds, headers, donorMap)`: one
`getDonor` per ID, results written into the map (`getDonor` never rejects,
so the `.catch` arm of the source is dead code).  The promises run
interleaved in the source; entries are keyed by distinct IDs, so the map
content is interleaving-independent and the breaker state is threaded in
list order here.  Returns the map, the breaker state, the total HTTP
attempts and the number of donors actually retrieved from downstream. -/
def processDonorChunkIndividually
    (indivOp : String → Nat → Except String (Option (Envelope Donor)))
    (now : Int) :
    List String → List (String × Donor) → BreakerState →
      List (String × Donor) × BreakerState × Nat × Nat
  | [], m, s => (m, s, 0, 0)
  | id :: rest, m, s =>
      let c := getDonor id (indivOp id) now s
      let r := processDonorChunkIndividually indivOp now rest (mapPut m id c.value) c.state
      (r.1, r.2.1, c.attempts + r.2.2.1, (if c.succeeded then 1 else 0) + r.2.2.2)

/-- The terminal outcome of one chunk's batch call: `_retryWithBackoff`
around `axios.get(baseUrl/batch)` followed by the envelope check; `none`
means the chunk threw (transport failure after retries, or invalid shape)
and fell back to individual requests. -/
def chunkBatchResult
    (batchOp : List String → Nat → Except String (Option (Envelope (List Donor))))
    (chunk : List String) : Option (List Donor) :=
  match (retryWithBackoff (batchOp chunk) maxRetries retryDelay).result with
  | .ok resp => validPayload resp
  | .error _ => none

/-- HTTP attempts consumed by one chunk's batch call. -/
def chunkBatchAttempts
    (batchOp : List String → Nat → Except String (Option (Envelope (List Donor))))
    (chunk : List String) : Nat :=
  (retryWithBackoff (batchOp chunk) maxRetries retryDelay).attempts

/-- The `for (const chunk of donorIdChunks)` loop body of `getDonors`:
merge a valid batch response into the map, or fall back to individual
requests for the chunk.  Accumulates (map, breaker state, attempts,
retrieved-entity count). -/
def processChunks
    (batchOp : List String → Nat → Except String (Option (Envelope (List Donor))))
    (indivOp : String → Nat → Except String (Option (Envelope Donor)))
    (now : Int) :
    List (List String) → List (String × Donor) → BreakerState →
      List (String × Donor) × BreakerState × Nat × Nat
  | [], m, s => (m, s, 0, 0)
  | chunk :: rest, m, s =>
      match chunkBatchResult batchOp chunk with
      | some donors =>
          let r := processChunks batchOp indivOp now rest (putAll donors m) s
          (r.1, r.2.1, chunkBatchAttempts batchOp chunk + r.2.2.1, donors.length + r.2.2.2)
      | none =>
          let f := processDonorChunkIndividually indivOp now chunk m s
          let r := processChunks batchOp indivOp now rest f.1 f.2.1
          (r.1, r.2.1,
            chunkBatchAttempts batchOp chunk + f.2.2.1 + r.2.2.1,
            f.2.2.2 + r.2.2.2)

/-- The backfill loop `uniqueDonorIds.forEach(id => if (!donorMap[id])
donorMap[id] = _createDefaultDonor(id))` (map values are objects, hence
always truthy: only key absence triggers the fill). -/
def backfillDefaults : List String → List (String × Donor) → List (String × Donor)
  | [], m => m
  | id :: rest, m =>
      backfillDefaults rest (if id ∈ mapKeys m then m else mapPut m id (createDefaultDonor id))

/-- Result of one `getDonors` call: the returned map (insertion-ordered
association list), the final breaker state, the total outbound HTTP
attempts, the aggregate breaker record made at the end (`none` when no
record was made, `some b` when `recordSuccess` (`b = true`) or
`recordFailure` (`b = false`) was called on the aggregate outcome), and the
number of donor entities actually obtained from the downstream service. -/
structure BatchCallResult where
  value : List (String × Donor)
  state : BreakerState
  attempts : Nat
  aggregateRecord : Option Bool
  retrieved : Nat
deriving Repr

/-- `DonorServiceClient.getDonors(donorIds, headers)`.  Per the source:
empty input returns `{}` at once; IDs are de-duplicated; a denied circuit
returns `_createDefaultDonorMap(uniqueDonorIds)` with no network attempt;
otherwise the unique IDs are chunked 20 apiece and processed sequentially,
one aggregate success/failure is recorded depending on whether the map is
non-empty, and missing IDs are backfilled with defaults.  The outer
`catch`/`_fallbackToIndividualRequests` arm is unreachable here: every
failure inside the loop is absorbed by the per-chunk `try`/`catch`, and the
header plumbing that could alone throw earlier is outside the modelled
control flow. -/
def getDonors (donorIds : List String)
    (batchOp : List String → Nat → Except String (Option (Envelope (List Donor))))
    (indivOp : String → Nat → Except String (Option (Envelope Donor)))
    (now : Int) (s : BreakerState) : BatchCallResult :=
  if donorIds = [] then ⟨[], s, 0, none, 0⟩
  else
    let uniq := uniqueFirst donorIds
    match checkCircuit now s with
    | (false, s1) =>
        ⟨uniq.map (fun id => (id, createDefaultDonor id)), s1, 0, none, 0⟩
    | (true, s1) =>
        let r := processChunks batchOp indivOp now (chunkArray uniq 20) [] s1
        let s2 := if r.1.length > 0 then recordSuccess r.2.1 else recordFailure now r.2.1
        ⟨backfillDefaults uniq r.1, s2, r.2.2.1, some (r.1.length > 0), r.2.2.2⟩

/-- Concurrency schedule of `_processDonorChunkIndividually` (lines 505-522):
`donorIds.map(id => this.getDonor(...))` starts every call before
`Promise.allSettled` awaits them, so the whole chunk is one concurrent
wave. -/
def chunkIndividualWaves (donorIds : List String) : List (List String) :=
  [donorIds]

/-- Pacing sleeps of `_processDonorChunkIndividually`: there are none. -/
def chunkIndividualDelays (donorIds : List String) : List Nat :=
  []

/-- Concurrency schedule of `_fallbackToIndividualRequests` (lines 531-568):
`concurrencyLimit = 3`, the queue is built by slicing 3 IDs at a time, and
the batches are awaited strictly one after another. -/
def fallbackWaves (donorIds : List String) : List (List String) :=
  chunkArray donorIds 3

/-- Pacing sleeps of `_fallbackToIndividualRequests`: a 50 ms
`setTimeout` wait after each awaited batch. -/
def fallbackDelays (donorIds : List String) : List Nat :=
  (fallbackWaves donorIds).map (fun _ => 50)

/-- The keys a chunk's loop iteration adds to the map: the IDs of the
donors of a valid batch response, or (via the individual fallback) the
chunk's own IDs. -/
def chunkAddedKeys
    (batchOp : List String → Nat → Except String (Option (Envelope (List Donor))))
    (chunk : List String) : List String :=
  match chunkBatchResult batchOp chunk with
  | some donors => donors.map Donor.id
  | none => chunk

/-- Whether a chunk's loop iteration leaves the map non-empty: a valid
batch response with at least one donor, or a fallback over a non-empty
chunk (whose entries may all be degraded defaults). -/
def chunkContributes
    (batchOp : List String → Nat → Except String (Option (Envelope (List Donor))))
    (chunk : List String) : Bool :=
  match chunkBatchResult batchOp chunk with
  | some donors => !donors.isEmpty
  | none => !chunk.isEmpty

/-- Breaker states reachable from the initial fields by any interleaving of
`_checkCircuit`, `_recordSuccess` and `_recordFailure` calls (at arbitrary
clock readings). -/
inductive Reach : BreakerState → Prop
  | init : Reach initialBreaker
  | check (t : Int) {s : BreakerState} : Reach s → Reach (checkCircuit t s).2
  | recSucc {s : BreakerState} : Reach s → Reach (recordSuccess s)
  | recFail (t : Int) {s : BreakerState} : Reach s → Reach (recordFailure t s)

section Lemmas

/-- An `OPEN` breaker whose last failure is younger than `resetTimeout`
denies the request and leaves the state untouched. -/
theorem checkCircuit_open_denies (now l : Int) (s : BreakerState)
    (hopen : s.circuitState = .OPEN) (hlast : s.lastFailureTime = some l)
    (hnot : now - l < resetTimeout) :
    checkCircuit now s = (false, s) := by
  unfold checkCircuit
  rw [hopen, hlast]
  simp only [Option.getD_some]
  rw [if_neg (by omega)]

/-- `_checkCircuit` never touches `_lastFailureTime`. -/
theorem checkCircuit_last (t : Int) (s : BreakerState) :
    (checkCircuit t s).2.lastFailureTime = s.lastFailureTime := by
  rcases s with ⟨cs, fc, lf⟩
  cases cs with
  | CLOSED => rfl
  | OPEN =>
      unfold checkCircuit
      dsimp only
      split <;> rfl
  | HALF_OPEN => rfl

/-- `_checkCircuit` either keeps the state name or moves an `OPEN` breaker
to `HALF_OPEN`. -/
theorem checkCircuit_state_cases (t : Int) (s : BreakerState) :
    (checkCircuit t s).2.circuitState = s.circuitState ∨
      ((checkCircuit t s).2.circuitState = .HALF_OPEN ∧ s.circuitState = .OPEN) := by
  rcases s with ⟨cs, fc, lf⟩
  cases cs with
  | CLOSED => exact Or.inl rfl
  | OPEN =>
      unfold checkCircuit
      dsimp only
      split
      · exact Or.inr ⟨rfl, rfl⟩
      · exact Or.inl rfl
  | HALF_OPEN => exact Or.inl rfl

/-- `_recordSuccess` never touches `_lastFailureTime`. -/
theorem recordSuccess_last (s : BreakerState) :
    (recordSuccess s).lastFailureTime = s.lastFailureTime := by
  unfold recordSuccess
  split
  · rfl
  · split <;> rfl

/-- `_recordSuccess` either closes the breaker or keeps the state name. -/
theorem recordSuccess_state_cases (s : BreakerState) :
    (recordSuccess s).circuitState = .CLOSED ∨
      (recordSuccess s).circuitState = s.circuitState := by
  unfold recordSuccess
  split
  · exact Or.inl rfl
  · split <;> exact Or.inr rfl

/-- `_recordFailure` always stamps `_lastFailureTime` with the current
time. -/
theorem recordFailure_last (t : Int) (s : BreakerState) :
    (recordFailure t s).lastFailureTime = some t := by
  unfold recordFailure
  dsimp only
  split <;> rfl

/-- The doubled-delay list of one more retry level. -/
theorem range_map_double (n d : Nat) :
    (List.range (n + 1)).map (fun i => d * 2 ^ i) =
      d :: (List.range n).map (fun i => d * 2 * 2 ^ i) := by
  rw [List.range_succ_eq_map, List.map_cons, List.map_map]
  simp only [pow_zero, mul_one]
  congr 1
  refine List.map_congr_left fun i _ => ?_
  simp only [Function.comp_apply, pow_succ]
  ring

/-- A permanently failing operation exhausts all retries: `r + 1` attempts,
doubling delays, and the error of the final attempt. -/
theorem retryAux_allFail (op : Nat → Except ε α) (err : Nat → ε)
    (h : ∀ j, op j = .error (err j)) :
    ∀ r k d, retryAux op r k d =
      ⟨.error (err (k + r)), r + 1, (List.range r).map (fun i => d * 2 ^ i)⟩ := by
  intro r
  induction r with
  | zero =>
      intro k d
      simp [retryAux, h k]
  | succ n ih =>
      intro k d
      rw [retryAux.eq_def]
      dsimp only
      rw [h k]
      dsimp only
      rw [ih (k + 1) (d * 2), range_map_double,
        show k + 1 + n = k + (n + 1) from by omega]

/-- `_retryWithBackoff` on a permanently failing operation. -/
theorem retryWithBackoff_allFail (op : Nat → Except ε α) (err : Nat → ε)
    (h : ∀ j, op j = .error (err j)) (n d : Nat) :
    retryWithBackoff op n d =
      ⟨.error (err n), n + 1, (List.range n).map (fun i => d * 2 ^ i)⟩ := by
  simpa using retryAux_allFail op err h n 0 d

/-- An operation whose first `j` attempts fail and whose attempt `j`
succeeds stops right there: `j + 1` attempts, `j` sleeps. -/
theorem retryAux_succeedsAt (op : Nat → Except ε α) (a : α) :
    ∀ (j r k d : Nat),
      (∀ i, i < j → ∃ e, op (k + i) = .error e) →
      op (k + j) = .ok a → j ≤ r →
      retryAux op r k d =
        ⟨.ok a, j + 1, (List.range j).map (fun i => d * 2 ^ i)⟩ := by
  intro j
  induction j with
  | zero =>
      intro r k d hpre hok hle
      have hk : op k = .ok a := by simpa using hok
      cases r with
      | zero =>
          rw [retryAux.eq_def]
          dsimp only
          rw [hk]
          rfl
      | succ r₂ =>
          rw [retryAux.eq_def]
          dsimp only
          rw [hk]
          rfl
  | succ m ih =>
      intro r k d hpre hok hle
      obtain ⟨e, he⟩ := hpre 0 (by omega)
      have he0 : op k = .error e := by simpa using he
      cases r with
      | zero => omega
      | succ r₂ =>
          have hpre₂ : ∀ i, i < m → ∃ e, op (k + 1 + i) = .error e := by
            intro i hi
            obtain ⟨e₂, he₂⟩ := hpre (i + 1) (by omega)
            exact ⟨e₂, by rw [show k + 1 + i = k + (i + 1) by omega]; exact he₂⟩
          have hok₂ : op (k + 1 + m) = .ok a := by
            rw [show k + 1 + m = k + (m + 1) by omega]; exact hok
          rw [retryAux.eq_def]
          dsimp only
          rw [he0]
          dsimp only
          rw [ih r₂ (k + 1) (d * 2) hpre₂ hok₂ (by omega), range_map_double]

/-- `_retryWithBackoff` stops at the first successful attempt. -/
theorem retryWithBackoff_succeedsAt (op : Nat → Except ε α) (a : α)
    (j n d : Nat) (hpre : ∀ i, i < j → ∃ e, op i = .error e)
    (hok : op j = .ok a) (hjn : j ≤ n) :
    retryWithBackoff op n d =
      ⟨.ok a, j + 1, (List.range j).map (fun i => d * 2 ^ i)⟩ := by
  refine retryAux_succeedsAt op a j n 0 d ?_ (by simpa using hok) hjn
  intro i hi
  simpa using hpre i hi

/-- The retrier's final result is always the outcome of one of the
attempts. -/
theorem retryAux_result_is_attempt (op : Nat → Except ε α) :
    ∀ r k d, ∃ j, (retryAux op r k d).result = op j := by
  intro r
  induction r with
  | zero =>
      intro k d
      refine ⟨k, ?_⟩
      rw [retryAux.eq_def]
      dsimp only
      cases h : op k <;> rfl
  | succ n ih =>
      intro k d
      cases h : op k with
      | ok a =>
          refine ⟨k, ?_⟩
          rw [retryAux.eq_def]
          dsimp only
          rw [h]
      | error e =>
          obtain ⟨j, hj⟩ := ih (k + 1) (d * 2)
          refine ⟨j, ?_⟩
          rw [retryAux.eq_def]
          dsimp only
          rw [h]
          dsimp only
          exact hj

end Lemmas

/-- C2: starting from the initial breaker (CLOSED, failure count 0), five
consecutive `_recordFailure` events (at arbitrary times, the last at `t5`)
leave the breaker `OPEN`, and until `resetTimeout` has elapsed since `t5`
every `_checkCircuit` call returns `false` without changing the state, so
the next `getDonor` call short-circuits with zero network attempts. -/
theorem breaker_trips_after_five_failures
    (t1 t2 t3 t4 t5 t : Int) (donorId : String)
    (op : Nat → Except String (Option (Envelope Donor)))
    (h : t - t5 < resetTimeout) :
    (recordFailure t5 (recordFailure t4 (recordFailure t3 (recordFailure t2
        (recordFailure t1 initialBreaker))))).circuitState = .OPEN ∧
    checkCircuit t (recordFailure t5 (recordFailure t4 (recordFailure t3
        (recordFailure t2 (recordFailure t1 initialBreaker))))) =
      (false, recordFailure t5 (recordFailure t4 (recordFailure t3
        (recordFailure t2 (recordFailure t1 initialBreaker))))) ∧
    getDonor donorId op t (recordFailure t5 (recordFailure t4 (recordFailure t3
        (recordFailure t2 (recordFailure t1 initialBreaker))))) =
      ⟨createDefaultDonor donorId,
        recordFailure t5 (recordFailure t4 (recordFailure t3 (recordFailure t2
          (recordFailure t1 initialBreaker)))), 0, false⟩ := by
  have hs5 : recordFailure t5 (recordFailure t4 (recordFailure t3 (recordFailure t2
      (recordFailure t1 initialBreaker)))) = ⟨.OPEN, 5, some t5⟩ := rfl
  rw [hs5]
  have hcc : checkCircuit t (⟨.OPEN, 5, some t5⟩ : BreakerState) =
      (false, (⟨.OPEN, 5, some t5⟩ : BreakerState)) :=
    checkCircuit_open_denies t t5 _ rfl rfl h
  refine ⟨rfl, hcc, ?_⟩
  unfold getDonor
  rw [hcc]

/-- C2 witness at concrete times. -/
theorem breaker_trips_after_five_failures_witness :
    (recordFailure 5 (recordFailure 4 (recordFailure 3 (recordFailure 2
        (recordFailure 1 initialBreaker))))).circuitState = .OPEN ∧
    checkCircuit 100 (recordFailure 5 (recordFailure 4 (recordFailure 3
        (recordFailure 2 (recordFailure 1 initialBreaker))))) =
      (false, recordFailure 5 (recordFailure 4 (recordFailure 3
        (recordFailure 2 (recordFailure 1 initialBreaker))))) ∧
    getDonor "d9" (fun _ => .error "down") 100 (recordFailure 5 (recordFailure 4
        (recordFailure 3 (recordFailure 2 (recordFailure 1 initialBreaker))))) =
      ⟨createDefaultDonor "d9",
        recordFailure 5 (recordFailure 4 (recordFailure 3 (recordFailure 2
          (recordFailure 1 initialBreaker)))), 0, false⟩ :=
  breaker_trips_after_five_failures 1 2 3 4 5 100 "d9" (fun _ => .error "down")
    (by decide)

/-- C3: an `OPEN` breaker whose `resetTimeout` has elapsed admits the next
`_checkCircuit` call and moves to `HALF_OPEN`; a success recorded there
closes the breaker and zeroes the failure count; a failure recorded there
re-opens it and restamps `lastFailureTime`, restarting the window. -/
theorem half_open_recovery (s : BreakerState) (l t u : Int)
    (hopen : s.circuitState = .OPEN) (hlast : s.lastFailureTime = some l)
    (helapsed : t - l ≥ resetTimeout) :
    (checkCircuit t s).1 = true ∧
    (checkCircuit t s).2.circuitState = .HALF_OPEN ∧
    (recordSuccess (checkCircuit t s).2).circuitState = .CLOSED ∧
    (recordSuccess (checkCircuit t s).2).failureCount = 0 ∧
    (recordFailure u (checkCircuit t s).2).circuitState = .OPEN ∧
    (recordFailure u (checkCircuit t s).2).lastFailureTime = some u := by
  have hcc : checkCircuit t s = (true, { s with circuitState := .HALF_OPEN }) := by
    unfold checkCircuit
    rw [hopen, hlast]
    simp only [Option.getD_some]
    rw [if_pos (by omega)]
  rw [hcc]
  refine ⟨rfl, rfl, ?_, ?_, ?_, ?_⟩
  · simp [recordSuccess]
  · simp [recordSuccess]
  · simp [recordFailure]
  · simp [recordFailure]

/-- C3 witness: breaker opened at time 0, probed at 30000. -/
theorem half_open_recovery_witness :
    (checkCircuit 30000 (⟨.OPEN, 5, some 0⟩ : BreakerState)).1 = true ∧
    (checkCircuit 30000 (⟨.OPEN, 5, some 0⟩ : BreakerState)).2.circuitState = .HALF_OPEN ∧
    (recordSuccess (checkCircuit 30000
        (⟨.OPEN, 5, some 0⟩ : BreakerState)).2).circuitState = .CLOSED ∧
    (recordSuccess (checkCircuit 30000
        (⟨.OPEN, 5, some 0⟩ : BreakerState)).2).failureCount = 0 ∧
    (recordFailure 30001 (checkCircuit 30000
        (⟨.OPEN, 5, some 0⟩ : BreakerState)).2).circuitState = .OPEN ∧
    (recordFailure 30001 (checkCircuit 30000
        (⟨.OPEN, 5, some 0⟩ : BreakerState)).2).lastFailureTime = some 30001 :=
  half_open_recovery ⟨.OPEN, 5, some 0⟩ 0 30000 30001 rfl rfl (by decide)

/-- C4: the backoff retrier attempts a permanently failing operation exactly
`n + 1` times, sleeping `d * 2 ^ k` before attempt `k + 2`, and propagates
the error of the final attempt; an operation whose attempt `k ≤ n` succeeds
returns that result immediately after `k + 1` attempts. -/
theorem retry_attempts_and_backoff {ε α : Type}
    (op op2 : Nat → Except ε α) (err : Nat → ε) (a : α) (n k d : Nat)
    (hd : 0 < d)
    (hfail : ∀ j, op j = .error (err j))
    (hpre : ∀ i, i < k → ∃ e, op2 i = .error e)
    (hok : op2 k = .ok a) (hkn : k ≤ n) :
    retryWithBackoff op n d =
      ⟨.error (err n), n + 1, (List.range n).map (fun i => d * 2 ^ i)⟩ ∧
    retryWithBackoff op2 n d =
      ⟨.ok a, k + 1, (List.range k).map (fun i => d * 2 ^ i)⟩ :=
  ⟨retryWithBackoff_allFail op err hfail n d,
    retryWithBackoff_succeedsAt op2 a k n d hpre hok hkn⟩

/-- C4 witness: maxRetries 3, initialDelay 300: a permanently failing
operation makes 4 attempts with delays 300, 600, 1200; an operation failing
only on its first attempt returns after 2 attempts and one 300 ms sleep. -/
theorem retry_attempts_and_backoff_witness :
    retryWithBackoff (fun j => (.error j : Except Nat Nat)) 3 300 =
      ⟨.error 3, 3 + 1, (List.range 3).map (fun i => 300 * 2 ^ i)⟩ ∧
    retryWithBackoff (fun i => if i = 0 then (.error 7 : Except Nat Nat) else .ok 42) 3 300 =
      ⟨.ok 42, 1 + 1, (List.range 1).map (fun i => 300 * 2 ^ i)⟩ :=
  retry_attempts_and_backoff (fun j => (.error j : Except Nat Nat))
    (fun i => if i = 0 then (.error 7 : Except Nat Nat) else .ok 42)
    (fun j => j) 42 3 1 300 (by decide) (fun _ => rfl)
    (by intro i hi; interval_cases i; exact ⟨7, rfl⟩) rfl (by decide)

/-- C10: in every breaker state reachable from the initial one, being
`OPEN` or `HALF_OPEN` implies `lastFailureTime` is non-null, so the elapsed
comparison in the `OPEN` branch of `_checkCircuit` always reads a real
timestamp. -/
theorem breaker_open_has_timestamp (s : BreakerState) (h : Reach s) :
    s.circuitState = .OPEN ∨ s.circuitState = .HALF_OPEN →
      s.lastFailureTime ≠ none := by
  induction h with
  | init => intro hst; simp [initialBreaker] at hst
  | check t hr ih =>
      rename_i s₀
      intro hst
      rw [checkCircuit_last]
      rcases checkCircuit_state_cases t s₀ with heq | ⟨_, ho⟩
      · rw [heq] at hst; exact ih hst
      · exact ih (Or.inl ho)
  | recSucc hr ih =>
      rename_i s₀
      intro hst
      rw [recordSuccess_last]
      rcases recordSuccess_state_cases s₀ with hcl | heq
      · rw [hcl] at hst
        rcases hst with h | h <;> exact absurd h (by decide)
      · rw [heq] at hst; exact ih hst
  | recFail t hr ih =>
      rename_i s₀
      intro _
      rw [recordFailure_last]
      simp

/-- Every `getDonor` run either takes the success path or returns the
default donor object. -/
theorem getDonor_cases (donorId : String)
    (op : Nat → Except String (Option (Envelope Donor)))
    (now : Int) (s : BreakerState) :
    (getDonor donorId op now s).succeeded = true ∨
      (getDonor donorId op now s).value = createDefaultDonor donorId := by
  unfold getDonor
  split
  · exact Or.inr rfl
  · dsimp only
    split
    · split
      · exact Or.inl rfl
      · exact Or.inr rfl
    · exact Or.inr rfl

/-- Every `getReceiptById` run either takes the success path or returns
`null`. -/
theorem getReceiptById_cases (receiptId : String)
    (op : Nat → Except String (Option (Envelope Receipt)))
    (now : Int) (s : BreakerState) :
    (getReceiptById receiptId op now s).succeeded = true ∨
      (getReceiptById receiptId op now s).value = none := by
  unfold getReceiptById
  split
  · exact Or.inr rfl
  · dsimp only
    split
    · split
      · exact Or.inl rfl
      · exact Or.inr rfl
    · exact Or.inr rfl

/-- C1 (amended): on every non-success path — breaker-open short-circuit or
terminal failure — `getDonor` returns the fully-formed default donor
carrying the `_defaultData` marker and never throws (it is total), whereas
`ReceiptServiceClient.getReceiptById` returns `null` (`none`) on those same
paths rather than a marked default object. -/
theorem degraded_value_policy (donorId receiptId : String)
    (opD : Nat → Except String (Option (Envelope Donor)))
    (opR : Nat → Except String (Option (Envelope Receipt)))
    (now : Int) (s : BreakerState) :
    ((getDonor donorId opD now s).succeeded = false →
      (getDonor donorId opD now s).value = createDefaultDonor donorId ∧
      (getDonor donorId opD now s).value.defaultData = true) ∧
    ((getReceiptById receiptId opR now s).succeeded = false →
      (getReceiptById receiptId opR now s).value = none) := by
  refine ⟨fun hfail => ⟨?_, ?_⟩, fun hfail => ?_⟩
  · rcases getDonor_cases donorId opD now s with ht | hv
    · rw [ht] at hfail; simp at hfail
    · exact hv
  · rcases getDonor_cases donorId opD now s with ht | hv
    · rw [ht] at hfail; simp at hfail
    · rw [hv]; rfl
  · rcases getReceiptById_cases receiptId opR now s with ht | hv
    · rw [ht] at hfail; simp at hfail
    · exact hv

/-- C1 witness: with a downstream that rejects every attempt, `getDonor`
returns the marked default and `getReceiptById` returns `none`. -/
theorem degraded_value_policy_witness :
    (getDonor "dw" (fun _ => .error "down") 0 initialBreaker).value =
      createDefaultDonor "dw" ∧
    (getDonor "dw" (fun _ => .error "down") 0 initialBreaker).value.defaultData = true ∧
    (getReceiptById "rw" (fun _ => .error "down") 0 initialBreaker).value = none := by
  have h := degraded_value_policy "dw" "rw" (fun _ => .error "down")
    (fun _ => .error "down") 0 initialBreaker
  exact ⟨(h.1 (by decide)).1, (h.1 (by decide)).2, h.2 (by decide)⟩

/-- C1 counterexample: `getReceiptById` returns `null` (`none`) both on the
breaker-open short-circuit (state OPEN, 10 ms after the last failure) and
on a terminal failure from the CLOSED state — not a marked degraded
default, so the claim that every resilient-client operation yields a
`_defaultData`-carrying value on those paths is false. -/
theorem receipt_null_on_open_cex :
    (getReceiptById "r1" (fun _ => .error "down") 10
      (⟨.OPEN, 5, some 0⟩ : BreakerState)).value = none ∧
    (getReceiptById "r2" (fun _ => .error "down") 0 initialBreaker).value = none := by
  decide

/-- C6 (amended): response-shape validation happens outside the retry
wrapper: when the first HTTP attempt resolves with a structurally invalid
body, `getDonor` performs exactly one outbound attempt — no retries — then
records a single failure and returns the default donor; only rejected
attempts (transport errors / non-2xx) are retried, a permanently rejecting
operation consuming `maxRetries + 1` attempts. -/
theorem malformed_not_retried (donorId : String)
    (op opT : Nat → Except String (Option (Envelope Donor)))
    (err : Nat → String) (resp : Option (Envelope Donor))
    (now : Int) (s : BreakerState)
    (hallow : (checkCircuit now s).1 = true)
    (h0 : op 0 = .ok resp) (hbad : validPayload resp = none)
    (hfail : ∀ j, opT j = .error (err j)) :
    getDonor donorId op now s =
      ⟨createDefaultDonor donorId, recordFailure now (checkCircuit now s).2, 1, false⟩ ∧
    (getDonor donorId opT now s).attempts = maxRetries + 1 := by
  have hret : retryWithBackoff op maxRetries retryDelay = ⟨.ok resp, 1, []⟩ := by
    have h := retryWithBackoff_succeedsAt op resp 0 maxRetries retryDelay
      (fun i hi => absurd hi (by omega)) h0 (by omega)
    simpa using h
  have hretT := retryWithBackoff_allFail opT err hfail maxRetries retryDelay
  constructor
  · unfold getDonor
    rcases hcc : checkCircuit now s with ⟨b, s1⟩
    have hb : b = true := by rw [hcc] at hallow; exact hallow
    subst hb
    dsimp only
    rw [hret]
    dsimp only
    rw [hbad]
  · unfold getDonor
    rcases hcc : checkCircuit now s with ⟨b, s1⟩
    have hb : b = true := by rw [hcc] at hallow; exact hallow
    subst hb
    dsimp only
    rw [hretT]

/-- C6 witness: a first-attempt 2xx response `{success: false}` is not
retried, while a permanently rejecting downstream consumes all three
attempts. -/
theorem malformed_not_retried_witness :
    getDonor "d1" (fun _ => .ok (some ⟨false, none⟩)) 0 initialBreaker =
      ⟨createDefaultDonor "d1", recordFailure 0 (checkCircuit 0 initialBreaker).2,
        1, false⟩ ∧
    (getDonor "d1" (fun _ => .error "down") 0 initialBreaker).attempts =
      maxRetries + 1 :=
  malformed_not_retried "d1" (fun _ => .ok (some ⟨false, none⟩))
    (fun _ => .error "down") (fun _ => "down") (some ⟨false, none⟩) 0 initialBreaker
    (by decide) rfl (by decide) (fun _ => rfl)

/-- C6 counterexample: with `maxRetries = 2`, a malformed 2xx body on the
first attempt yields exactly 1 outbound attempt (zero retries) and one
breaker failure, refuting the claim that a structurally invalid response is
retried up to `maxRetries` times before being counted. -/
theorem malformed_single_attempt_cex :
    (getDonor "d2" (fun _ => .ok (some ⟨false, none⟩)) 0 initialBreaker).attempts = 1 ∧
    (getDonor "d2" (fun _ => .ok (some ⟨false, none⟩)) 0
      initialBreaker).state.failureCount = 1 ∧
    maxRetries = 2 := by
  decide

/-- C7: with the breaker OPEN and `resetTimeout` not yet elapsed, both
`getDonor` and `getDonors` make zero outbound HTTP attempts, return
degraded defaults (one per unique input ID for the batch), record no
aggregate outcome, and leave the breaker state — including the failure
counter — unchanged. -/
theorem open_breaker_no_network (donorId : String) (donorIds : List String)
    (op : Nat → Except String (Option (Envelope Donor)))
    (batchOp : List String → Nat → Except String (Option (Envelope (List Donor))))
    (indivOp : String → Nat → Except String (Option (Envelope Donor)))
    (now l : Int) (s : BreakerState)
    (hopen : s.circuitState = .OPEN) (hlast : s.lastFailureTime = some l)
    (hnot : now - l < resetTimeout) :
    getDonor donorId op now s = ⟨createDefaultDonor donorId, s, 0, false⟩ ∧
    getDonors donorIds batchOp indivOp now s =
      ⟨(uniqueFirst donorIds).map (fun id => (id, createDefaultDonor id)),
        s, 0, none, 0⟩ := by
  have hcc := checkCircuit_open_denies now l s hopen hlast hnot
  constructor
  · unfold getDonor
    rw [hcc]
  · unfold getDonors
    by_cases hnil : donorIds = []
    · subst hnil
      rw [if_pos rfl]
      rfl
    · rw [if_neg hnil]
      dsimp only
      rw [hcc]

/-- C7 witness at a concrete OPEN state and input list with a duplicate. -/
theorem open_breaker_no_network_witness :
    getDonor "dw7" (fun _ => .error "x") 10 (⟨.OPEN, 5, some 0⟩ : BreakerState) =
      ⟨createDefaultDonor "dw7", ⟨.OPEN, 5, some 0⟩, 0, false⟩ ∧
    getDonors ["a", "b", "a"] (fun _ _ => .error "x") (fun _ _ => .error "x") 10
        (⟨.OPEN, 5, some 0⟩ : BreakerState) =
      ⟨(uniqueFirst ["a", "b", "a"]).map (fun id => (id, createDefaultDonor id)),
        ⟨.OPEN, 5, some 0⟩, 0, none, 0⟩ :=
  open_breaker_no_network "dw7" ["a", "b", "a"] (fun _ => .error "x")
    (fun _ _ => .error "x") (fun _ _ => .error "x") 10 0 ⟨.OPEN, 5, some 0⟩
    rfl rfl (by decide)

/-- C10 witness: a concrete reachable OPEN state has a timestamp. -/
theorem breaker_open_has_timestamp_witness :
    (recordFailure 4 (recordFailure 3 (recordFailure 2 (recordFailure 1
      (recordFailure 0 initialBreaker))))).lastFailureTime ≠ none :=
  breaker_open_has_timestamp _
    (Reach.recFail 4 (Reach.recFail 3 (Reach.recFail 2 (Reach.recFail 1
      (Reach.recFail 0 Reach.init)))))
    (Or.inl (by decide))

section BatchLemmas

/-- Membership in the de-duplication accumulator run. -/
theorem uniqueAux_mem (a : String) :
    ∀ (l seen : List String), a ∈ uniqueAux seen l ↔ (a ∈ l ∧ a ∉ seen) := by
  intro l
  induction l with
  | nil => intro seen; simp [uniqueAux]
  | cons x xs ih =>
      intro seen
      by_cases hx : x ∈ seen
      · rw [show uniqueAux seen (x :: xs) = uniqueAux seen xs from by
          simp [uniqueAux, hx]]
        rw [ih]
        constructor
        · rintro ⟨h1, h2⟩; exact ⟨List.mem_cons_of_mem x h1, h2⟩
        · rintro ⟨h1, h2⟩
          rcases List.mem_cons.mp h1 with rfl | h1
          · exact absurd hx h2
          · exact ⟨h1, h2⟩
      · rw [show uniqueAux seen (x :: xs) = x :: uniqueAux (x :: seen) xs from by
          simp [uniqueAux, hx]]
        simp only [List.mem_cons, ih]
        constructor
        · rintro (rfl | ⟨h1, h2⟩)
          · exact ⟨Or.inl rfl, hx⟩
          · exact ⟨Or.inr h1, fun hs => h2 (Or.inr hs)⟩
        · rintro ⟨h1, h2⟩
          by_cases hax : a = x
          · exact Or.inl hax
          · rcases h1 with rfl | h1
            · exact Or.inl rfl
            · refine Or.inr ⟨h1, fun hs => ?_⟩
              rcases hs with h | h
              · exact hax h
              · exact h2 h

/-- The de-duplication accumulator never emits duplicates. -/
theorem uniqueAux_nodup :
    ∀ (l seen : List String), (uniqueAux seen l).Nodup := by
  intro l
  induction l with
  | nil => intro seen; simp [uniqueAux]
  | cons x xs ih =>
      intro seen
      by_cases hx : x ∈ seen
      · rw [show uniqueAux seen (x :: xs) = uniqueAux seen xs from by
          simp [uniqueAux, hx]]
        exact ih seen
      · rw [show uniqueAux seen (x :: xs) = x :: uniqueAux (x :: seen) xs from by
          simp [uniqueAux, hx]]
        refine List.nodup_cons.mpr ⟨fun hmem => ?_, ih (x :: seen)⟩
        exact ((uniqueAux_mem x xs (x :: seen)).mp hmem).2 (List.mem_cons_self x seen)

/-- `[...new Set(l)]` has exactly the members of `l`. -/
theorem uniqueFirst_mem (a : String) (l : List String) :
    a ∈ uniqueFirst l ↔ a ∈ l := by
  unfold uniqueFirst
  rw [uniqueAux_mem]
  simp

/-- `[...new Set(l)]` has no duplicates. -/
theorem uniqueFirst_nodup (l : List String) : (uniqueFirst l).Nodup :=
  uniqueAux_nodup l []

/-- Keys of an ID-indexed pairing map. -/
theorem mapKeys_pairs (l : List String) (f : String → Donor) :
    mapKeys (l.map (fun id => (id, f id))) = l := by
  unfold mapKeys
  rw [List.map_map]
  rw [show (Prod.fst ∘ fun id : String => ((id, f id) : String × Donor)) = id from rfl,
    List.map_id]

/-- Writing an existing key leaves `Object.keys` unchanged. -/
theorem mapKeys_mapPut_of_mem (m : List (String × Donor)) (k : String) (v : Donor)
    (hk : k ∈ mapKeys m) : mapKeys (mapPut m k v) = mapKeys m := by
  unfold mapPut
  rw [if_pos hk]
  unfold mapKeys
  rw [List.map_map]
  refine List.map_congr_left fun p _ => ?_
  by_cases hp : p.1 = k
  · simp [hp]
  · simp [hp]

/-- Writing a fresh key appends it to `Object.keys`. -/
theorem mapKeys_mapPut_of_not_mem (m : List (String × Donor)) (k : String) (v : Donor)
    (hk : k ∉ mapKeys m) : mapKeys (mapPut m k v) = mapKeys m ++ [k] := by
  unfold mapPut
  rw [if_neg hk]
  unfold mapKeys
  simp

/-- Key membership after a map write. -/
theorem mem_mapKeys_mapPut (a : String) (m : List (String × Donor)) (k : String)
    (v : Donor) : a ∈ mapKeys (mapPut m k v) ↔ a = k ∨ a ∈ mapKeys m := by
  by_cases hk : k ∈ mapKeys m
  · rw [mapKeys_mapPut_of_mem m k v hk]
    constructor
    · exact Or.inr
    · rintro (rfl | h)
      · exact hk
      · exact h
  · rw [mapKeys_mapPut_of_not_mem m k v hk]
    simp [List.mem_append, or_comm]

/-- A map write preserves key distinctness. -/
theorem nodup_mapKeys_mapPut (m : List (String × Donor)) (k : String) (v : Donor)
    (h : (mapKeys m).Nodup) : (mapKeys (mapPut m k v)).Nodup := by
  by_cases hk : k ∈ mapKeys m
  · rw [mapKeys_mapPut_of_mem m k v hk]; exact h
  · rw [mapKeys_mapPut_of_not_mem m k v hk]
    simp [List.nodup_append, h, hk]

/-- A map write never produces the empty object. -/
theorem mapPut_ne_nil (m : List (String × Donor)) (k : String) (v : Donor) :
    mapPut m k v ≠ [] := by
  unfold mapPut
  split
  · rename_i hk
    intro hnil
    rw [List.map_eq_nil_iff] at hnil
    subst hnil
    simp [mapKeys] at hk
  · simp

/-- Key membership after merging a batch response. -/
theorem mem_mapKeys_putAll (a : String) :
    ∀ (ds : List Donor) (m : List (String × Donor)),
      a ∈ mapKeys (putAll ds m) ↔ a ∈ ds.map Donor.id ∨ a ∈ mapKeys m := by
  intro ds
  induction ds with
  | nil => intro m; simp [putAll]
  | cons d ds ih =>
      intro m
      rw [show putAll (d :: ds) m = putAll ds (mapPut m d.id d) from rfl, ih,
        mem_mapKeys_mapPut]
      simp only [List.map_cons, List.mem_cons]
      tauto

/-- Merging a batch response preserves key distinctness. -/
theorem nodup_mapKeys_putAll :
    ∀ (ds : List Donor) (m : List (String × Donor)),
      (mapKeys m).Nodup → (mapKeys (putAll ds m)).Nodup := by
  intro ds
  induction ds with
  | nil => intro m h; exact h
  | cons d ds ih =>
      intro m h
      exact ih (mapPut m d.id d) (nodup_mapKeys_mapPut m d.id d h)

/-- Merging a batch response empties to nothing only from nothing. -/
theorem putAll_eq_nil :
    ∀ (ds : List Donor) (m : List (String × Donor)),
      putAll ds m = [] ↔ (ds = [] ∧ m = []) := by
  intro ds
  induction ds with
  | nil => intro m; simp [putAll]
  | cons d ds ih =>
      intro m
      rw [show putAll (d :: ds) m = putAll ds (mapPut m d.id d) from rfl, ih]
      simp [mapPut_ne_nil m d.id d]

/-- Concatenating the chunks of `_chunkArray` restores the input list. -/
theorem chunkArrayAux_flatten {α : Type} (size : Nat) (hs : size ≠ 0) :
    ∀ (fuel : Nat) (l : List α), l.length ≤ fuel →
      (chunkArrayAux fuel l size).flatten = l := by
  intro fuel
  induction fuel with
  | zero =>
      intro l hl
      have : l = [] := List.length_eq_zero.mp (Nat.le_zero.mp hl)
      subst this
      rfl
  | succ f ih =>
      intro l hl
      cases l with
      | nil => rfl
      | cons x xs =>
          rw [show chunkArrayAux (f + 1) (x :: xs) size =
              (x :: xs).take size :: chunkArrayAux f ((x :: xs).drop size) size from by
            simp [chunkArrayAux, hs]]
          rw [List.flatten_cons]
          rw [ih ((x :: xs).drop size) (by
            simp only [List.length_drop, List.length_cons] at hl ⊢
            omega)]
          exact List.take_append_drop size (x :: xs)

/-- `_chunkArray` covers exactly the input list. -/
theorem chunkArray_flatten {α : Type} (l : List α) (size : Nat) (hs : size ≠ 0) :
    (chunkArray l size).flatten = l :=
  chunkArrayAux_flatten size hs l.length l (Nat.le_refl _)

/-- Every chunk produced by `_chunkArray` respects the size bound. -/
theorem chunkArrayAux_length_le {α : Type} (size : Nat) :
    ∀ (fuel : Nat) (l : List α) (c : List α),
      c ∈ chunkArrayAux fuel l size → c.length ≤ size := by
  intro fuel
  induction fuel with
  | zero => intro l c hc; simp [chunkArrayAux] at hc
  | succ f ih =>
      intro l c hc
      cases l with
      | nil => simp [chunkArrayAux] at hc
      | cons x xs =>
          by_cases hs : size = 0
          · simp [chunkArrayAux, hs] at hc
          · rw [show chunkArrayAux (f + 1) (x :: xs) size =
                (x :: xs).take size :: chunkArrayAux f ((x :: xs).drop size) size from by
              simp [chunkArrayAux, hs]] at hc
            rcases List.mem_cons.mp hc with rfl | hc
            · simp [List.length_take]
            · exact ih _ _ hc

/-- Size bound for `_chunkArray` chunks. -/
theorem chunkArray_length_le {α : Type} (l : List α) (size : Nat) (c : List α)
    (hc : c ∈ chunkArray l size) : c.length ≤ size :=
  chunkArrayAux_length_le size l.length l c hc

/-- Key membership after `_processDonorChunkIndividually`: exactly the
chunk's IDs plus the keys already present. -/
theorem processChunkIndividually_mem (a : String)
    (indivOp : String → Nat → Except String (Option (Envelope Donor))) (now : Int) :
    ∀ (chunk : List String) (m : List (String × Donor)) (s : BreakerState),
      a ∈ mapKeys (processDonorChunkIndividually indivOp now chunk m s).1 ↔
        a ∈ chunk ∨ a ∈ mapKeys m := by
  intro chunk
  induction chunk with
  | nil => intro m s; simp [processDonorChunkIndividually]
  | cons id rest ih =>
      intro m s
      rw [show (processDonorChunkIndividually indivOp now (id :: rest) m s).1 =
          (processDonorChunkIndividually indivOp now rest
            (mapPut m id (getDonor id (indivOp id) now s).value)
            (getDonor id (indivOp id) now s).state).1 from rfl]
      rw [ih, mem_mapKeys_mapPut]
      simp only [List.mem_cons]
      tauto

/-- `_processDonorChunkIndividually` preserves key distinctness. -/
theorem processChunkIndividually_nodup
    (indivOp : String → Nat → Except String (Option (Envelope Donor))) (now : Int) :
    ∀ (chunk : List String) (m : List (String × Donor)) (s : BreakerState),
      (mapKeys m).Nodup →
        (mapKeys (processDonorChunkIndividually indivOp now chunk m s).1).Nodup := by
  intro chunk
  induction chunk with
  | nil => intro m s h; exact h
  | cons id rest ih =>
      intro m s h
      exact ih _ _ (nodup_mapKeys_mapPut m id (getDonor id (indivOp id) now s).value h)

/-- `_processDonorChunkIndividually` leaves the map empty only when both the
chunk and the incoming map are empty. -/
theorem processChunkIndividually_eq_nil
    (indivOp : String → Nat → Except String (Option (Envelope Donor))) (now : Int) :
    ∀ (chunk : List String) (m : List (String × Donor)) (s : BreakerState),
      (processDonorChunkIndividually indivOp now chunk m s).1 = [] ↔
        (chunk = [] ∧ m = []) := by
  intro chunk
  induction chunk with
  | nil => intro m s; simp [processDonorChunkIndividually]
  | cons id rest ih =>
      intro m s
      rw [show (processDonorChunkIndividually indivOp now (id :: rest) m s).1 =
          (processDonorChunkIndividually indivOp now rest
            (mapPut m id (getDonor id (indivOp id) now s).value)
            (getDonor id (indivOp id) now s).state).1 from rfl]
      rw [ih]
      simp [mapPut_ne_nil]

/-- Key membership after the chunk loop of `getDonors`. -/
theorem processChunks_mem (a : String)
    (batchOp : List String → Nat → Except String (Option (Envelope (List Donor))))
    (indivOp : String → Nat → Except String (Option (Envelope Donor))) (now : Int) :
    ∀ (chunks : List (List String)) (m : List (String × Donor)) (s : BreakerState),
      a ∈ mapKeys (processChunks batchOp indivOp now chunks m s).1 ↔
        (∃ c ∈ chunks, a ∈ chunkAddedKeys batchOp c) ∨ a ∈ mapKeys m := by
  intro chunks
  induction chunks with
  | nil => intro m s; simp [processChunks]
  | cons c rest ih =>
      intro m s
      cases hcr : chunkBatchResult batchOp c with
      | some donors =>
          rw [show (processChunks batchOp indivOp now (c :: rest) m s).1 =
              (processChunks batchOp indivOp now rest (putAll donors m) s).1 from by
            simp only [processChunks, hcr]]
          rw [ih, mem_mapKeys_putAll,
            List.exists_mem_cons_iff (fun w => a ∈ chunkAddedKeys batchOp w) c rest]
          have hkeys : chunkAddedKeys batchOp c = donors.map Donor.id := by
            simp [chunkAddedKeys, hcr]
          rw [hkeys]
          constructor
          · rintro (hE | hD | hM)
            · exact Or.inl (Or.inr hE)
            · exact Or.inl (Or.inl hD)
            · exact Or.inr hM
          · rintro ((hD | hE) | hM)
            · exact Or.inr (Or.inl hD)
            · exact Or.inl hE
            · exact Or.inr (Or.inr hM)
      | none =>
          rw [show (processChunks batchOp indivOp now (c :: rest) m s).1 =
              (processChunks batchOp indivOp now rest
                (processDonorChunkIndividually indivOp now c m s).1
                (processDonorChunkIndividually indivOp now c m s).2.1).1 from by
            simp only [processChunks, hcr]]
          rw [ih, processChunkIndividually_mem,
            List.exists_mem_cons_iff (fun w => a ∈ chunkAddedKeys batchOp w) c rest]
          have hkeys : chunkAddedKeys batchOp c = c := by
            simp [chunkAddedKeys, hcr]
          rw [hkeys]
          constructor
          · rintro (hE | hD | hM)
            · exact Or.inl (Or.inr hE)
            · exact Or.inl (Or.inl hD)
            · exact Or.inr hM
          · rintro ((hD | hE) | hM)
            · exact Or.inr (Or.inl hD)
            · exact Or.inl hE
            · exact Or.inr (Or.inr hM)

/-- The chunk loop preserves key distinctness. -/
theorem processChunks_nodup
    (batchOp : List String → Nat → Except String (Option (Envelope (List Donor))))
    (indivOp : String → Nat → Except String (Option (Envelope Donor))) (now : Int) :
    ∀ (chunks : List (List String)) (m : List (String × Donor)) (s : BreakerState),
      (mapKeys m).Nodup →
        (mapKeys (processChunks batchOp indivOp now chunks m s).1).Nodup := by
  intro chunks
  induction chunks with
  | nil => intro m s h; exact h
  | cons c rest ih =>
      intro m s h
      cases hcr : chunkBatchResult batchOp c with
      | some donors =>
          rw [show (processChunks batchOp indivOp now (c :: rest) m s).1 =
              (processChunks batchOp indivOp now rest (putAll donors m) s).1 from by
            simp only [processChunks, hcr]]
          exact ih _ _ (nodup_mapKeys_putAll donors m h)
      | none =>
          rw [show (processChunks batchOp indivOp now (c :: rest) m s).1 =
              (processChunks batchOp indivOp now rest
                (processDonorChunkIndividually indivOp now c m s).1
                (processDonorChunkIndividually indivOp now c m s).2.1).1 from by
            simp only [processChunks, hcr]]
          exact ih _ _ (processChunkIndividually_nodup indivOp now c m s h)

/-- The chunk loop ends with an empty map exactly when it started empty and
no chunk contributed. -/
theorem processChunks_eq_nil
    (batchOp : List String → Nat → Except String (Option (Envelope (List Donor))))
    (indivOp : String → Nat → Except String (Option (Envelope Donor))) (now : Int) :
    ∀ (chunks : List (List String)) (m : List (String × Donor)) (s : BreakerState),
      (processChunks batchOp indivOp now chunks m s).1 = [] ↔
        (m = [] ∧ ∀ c ∈ chunks, chunkContributes batchOp c = false) := by
  intro chunks
  induction chunks with
  | nil => intro m s; simp [processChunks]
  | cons c rest ih =>
      intro m s
      cases hcr : chunkBatchResult batchOp c with
      | some donors =>
          rw [show (processChunks batchOp indivOp now (c :: rest) m s).1 =
              (processChunks batchOp indivOp now rest (putAll donors m) s).1 from by
            simp only [processChunks, hcr]]
          rw [ih, putAll_eq_nil, List.forall_mem_cons]
          have hcon : (chunkContributes batchOp c = false) ↔ donors = [] := by
            simp [chunkContributes, hcr]
          rw [hcon]
          tauto
      | none =>
          rw [show (processChunks batchOp indivOp now (c :: rest) m s).1 =
              (processChunks batchOp indivOp now rest
                (processDonorChunkIndividually indivOp now c m s).1
                (processDonorChunkIndividually indivOp now c m s).2.1).1 from by
            simp only [processChunks, hcr]]
          rw [ih, processChunkIndividually_eq_nil, List.forall_mem_cons]
          have hcon : (chunkContributes batchOp c = false) ↔ c = [] := by
            simp [chunkContributes, hcr]
          rw [hcon]
          tauto

/-- Key membership after the missing-ID backfill. -/
theorem backfill_mem (a : String) :
    ∀ (ids : List String) (m : List (String × Donor)),
      a ∈ mapKeys (backfillDefaults ids m) ↔ a ∈ ids ∨ a ∈ mapKeys m := by
  intro ids
  induction ids with
  | nil => intro m; simp [backfillDefaults]
  | cons id rest ih =>
      intro m
      by_cases hid : id ∈ mapKeys m
      · rw [show backfillDefaults (id :: rest) m = backfillDefaults rest m from by
          simp [backfillDefaults, hid]]
        rw [ih]
        simp only [List.mem_cons]
        constructor
        · tauto
        · rintro ((h | h) | h)
          · subst h; exact Or.inr hid
          · exact Or.inl h
          · exact Or.inr h
      · rw [show backfillDefaults (id :: rest) m =
            backfillDefaults rest (mapPut m id (createDefaultDonor id)) from by
          simp [backfillDefaults, hid]]
        rw [ih, mem_mapKeys_mapPut]
        simp only [List.mem_cons]
        tauto

/-- The backfill preserves key distinctness. -/
theorem backfill_nodup :
    ∀ (ids : List String) (m : List (String × Donor)),
      (mapKeys m).Nodup → (mapKeys (backfillDefaults ids m)).Nodup := by
  intro ids
  induction ids with
  | nil => intro m h; exact h
  | cons id rest ih =>
      intro m h
      by_cases hid : id ∈ mapKeys m
      · rw [show backfillDefaults (id :: rest) m = backfillDefaults rest m from by
          simp [backfillDefaults, hid]]
        exact ih m h
      · rw [show backfillDefaults (id :: rest) m =
            backfillDefaults rest (mapPut m id (createDefaultDonor id)) from by
          simp [backfillDefaults, hid]]
        exact ih _ (nodup_mapKeys_mapPut m id (createDefaultDonor id) h)

/-- A valid chunk response comes from some attempt of the chunk's batch
operation: used to transport the downstream ID contract through the
retrier. -/
theorem chunkBatchResult_subset
    (batchOp : List String → Nat → Except String (Option (Envelope (List Donor))))
    (chunk : List String) (ds : List Donor)
    (hsub : ∀ k env donors, batchOp chunk k = .ok (some env) →
      env.data = some donors → ∀ d ∈ donors, d.id ∈ chunk)
    (h : chunkBatchResult batchOp chunk = some ds) :
    ∀ d ∈ ds, d.id ∈ chunk := by
  unfold chunkBatchResult at h
  rcases hres : (retryWithBackoff (batchOp chunk) maxRetries retryDelay).result with e | resp
  · rw [hres] at h
    simp at h
  · rw [hres] at h
    dsimp only at h
    obtain ⟨j, hj⟩ := retryAux_result_is_attempt (batchOp chunk) maxRetries 0 retryDelay
    rw [show (retryWithBackoff (batchOp chunk) maxRetries retryDelay).result =
        (retryAux (batchOp chunk) maxRetries 0 retryDelay).result from rfl] at hres
    rw [hres] at hj
    cases resp with
    | none => simp [validPayload] at h
    | some env =>
        have hjs : batchOp chunk j = .ok (some env) := hj.symm
        have hdata : env.data = some ds := by
          unfold validPayload at h
          dsimp only at h
          by_cases hsucc : env.success = true
          · rw [if_pos hsucc] at h; exact h
          · rw [if_neg hsucc] at h; cases h
        exact hsub j env ds hjs hdata

end BatchLemmas

/-- C5: for every input ID list (any size, duplicates allowed) and every
combination of chunk successes and failures — under the downstream contract,
enforced by the donor service's `/batch` handler, that a batch response only
carries requested IDs — `getDonors` returns a map whose key set is exactly
the set of input IDs: one entry per unique ID, no missing keys, no extras,
no duplicates; the empty input yields the empty map with zero outbound
attempts. -/
theorem getDonors_batch_coverage (donorIds : List String)
    (batchOp : List String → Nat → Except String (Option (Envelope (List Donor))))
    (indivOp : String → Nat → Except String (Option (Envelope Donor)))
    (now : Int) (s : BreakerState)
    (hsub : ∀ chunk k env donors, batchOp chunk k = .ok (some env) →
      env.data = some donors → ∀ d ∈ donors, d.id ∈ chunk) :
    (∀ a, a ∈ mapKeys (getDonors donorIds batchOp indivOp now s).value ↔
      a ∈ donorIds) ∧
    (mapKeys (getDonors donorIds batchOp indivOp now s).value).Nodup ∧
    (donorIds = [] → (getDonors donorIds batchOp indivOp now s).value = [] ∧
      (getDonors donorIds batchOp indivOp now s).attempts = 0) := by
  by_cases hnil : donorIds = []
  · subst hnil
    refine ⟨?_, ?_, fun _ => ⟨rfl, rfl⟩⟩
    · intro a; simp [getDonors, mapKeys]
    · simp [getDonors, mapKeys]
  · rcases hcc : checkCircuit now s with ⟨b, s1⟩
    cases b
    · have hval : (getDonors donorIds batchOp indivOp now s).value =
          (uniqueFirst donorIds).map (fun id => (id, createDefaultDonor id)) := by
        unfold getDonors
        rw [if_neg hnil]
        dsimp only
        rw [hcc]
      refine ⟨?_, ?_, fun h => absurd h hnil⟩
      · intro a
        rw [hval, mapKeys_pairs, uniqueFirst_mem]
      · rw [hval, mapKeys_pairs]
        exact uniqueFirst_nodup donorIds
    · have hval : (getDonors donorIds batchOp indivOp now s).value =
          backfillDefaults (uniqueFirst donorIds)
            (processChunks batchOp indivOp now
              (chunkArray (uniqueFirst donorIds) 20) [] s1).1 := by
        unfold getDonors
        rw [if_neg hnil]
        dsimp only
        rw [hcc]
      refine ⟨?_, ?_, fun h => absurd h hnil⟩
      · intro a
        rw [hval, backfill_mem, processChunks_mem]
        constructor
        · rintro (h | h | h)
          · exact (uniqueFirst_mem a donorIds).mp h
          · obtain ⟨c, hc, ha⟩ := h
            have hac : a ∈ c := by
              unfold chunkAddedKeys at ha
              cases hcr : chunkBatchResult batchOp c with
              | some donors =>
                  rw [hcr] at ha
                  obtain ⟨d, hd, hda⟩ := List.mem_map.mp ha
                  have hdc := chunkBatchResult_subset batchOp c donors
                    (fun k env dn => hsub c k env dn) hcr d hd
                  exact hda ▸ hdc
              | none => rw [hcr] at ha; exact ha
            have hjoin : a ∈ (chunkArray (uniqueFirst donorIds) 20).flatten :=
              List.mem_flatten.mpr ⟨c, hc, hac⟩
            rw [chunkArray_flatten (uniqueFirst donorIds) 20 (by omega)] at hjoin
            exact (uniqueFirst_mem a donorIds).mp hjoin
          · simp [mapKeys] at h
        · intro h
          exact Or.inl ((uniqueFirst_mem a donorIds).mpr h)
      · rw [hval]
        exact backfill_nodup _ _
          (processChunks_nodup batchOp indivOp now _ [] s1 (by simp [mapKeys]))

/-- C5 witness: all chunk calls failing, duplicated input. -/
theorem getDonors_batch_coverage_witness :
    (∀ a, a ∈ mapKeys (getDonors ["a", "b", "a"] (fun _ _ => .error "down")
        (fun _ _ => .error "down") 0 initialBreaker).value ↔
      a ∈ ["a", "b", "a"]) ∧
    (mapKeys (getDonors ["a", "b", "a"] (fun _ _ => .error "down")
        (fun _ _ => .error "down") 0 initialBreaker).value).Nodup ∧
    (["a", "b", "a"] = [] → (getDonors ["a", "b", "a"] (fun _ _ => .error "down")
        (fun _ _ => .error "down") 0 initialBreaker).value = [] ∧
      (getDonors ["a", "b", "a"] (fun _ _ => .error "down")
        (fun _ _ => .error "down") 0 initialBreaker).attempts = 0) :=
  getDonors_batch_coverage ["a", "b", "a"] (fun _ _ => .error "down")
    (fun _ _ => .error "down") 0 initialBreaker
    (by intro chunk k env donors hok; simp at hok)

/-- C8 (amended): when a chunk's batch call fails, the per-chunk fallback
`_processDonorChunkIndividually` launches the whole chunk as one concurrent
wave — in-flight calls equal to the chunk size, bounded only by the 20-ID
chunking — with no pacing sleep; the 3-bounded waves with one 50 ms pause
per wave belong to `_fallbackToIndividualRequests`, reachable only from the
outer catch of `getDonors`, whose waves cover its input exactly. -/
theorem fallback_schedule_bounds (donorIds : List String) :
    (∀ w ∈ fallbackWaves donorIds, w.length ≤ 3) ∧
    (fallbackWaves donorIds).flatten = donorIds ∧
    (fallbackDelays donorIds).length = (fallbackWaves donorIds).length ∧
    (∀ x ∈ fallbackDelays donorIds, x = 50) ∧
    chunkIndividualWaves donorIds = [donorIds] ∧
    chunkIndividualDelays donorIds = [] := by
  refine ⟨?_, ?_, ?_, ?_, rfl, rfl⟩
  · intro w hw
    exact chunkArray_length_le donorIds 3 w hw
  · exact chunkArray_flatten donorIds 3 (by omega)
  · simp [fallbackDelays]
  · intro x hx
    obtain ⟨w, _, hxx⟩ := List.mem_map.mp hx
    exact hxx.symm

/-- C8 witness at a 4-ID chunk. -/
theorem fallback_schedule_bounds_witness :
    (∀ w ∈ fallbackWaves ["a", "b", "c", "d"], w.length ≤ 3) ∧
    (fallbackWaves ["a", "b", "c", "d"]).flatten = ["a", "b", "c", "d"] ∧
    (fallbackDelays ["a", "b", "c", "d"]).length =
      (fallbackWaves ["a", "b", "c", "d"]).length ∧
    (∀ x ∈ fallbackDelays ["a", "b", "c", "d"], x = 50) ∧
    chunkIndividualWaves ["a", "b", "c", "d"] = [["a", "b", "c", "d"]] ∧
    chunkIndividualDelays ["a", "b", "c", "d"] = [] :=
  fallback_schedule_bounds ["a", "b", "c", "d"]

/-- C8 counterexample: a failed 4-ID chunk is retried individually as a
single wave of 4 concurrent calls — exceeding the claimed in-flight bound
of 3 — and with no 50 ms pacing sleep. -/
theorem chunk_fallback_unbounded_cex :
    (chunkIndividualWaves ["a", "b", "c", "d"]).any
      (fun w => decide (3 < w.length)) = true ∧
    chunkIndividualDelays ["a", "b", "c", "d"] = [] := by
  decide

/-- C9 (amended): with a non-empty input and an admitting breaker,
`getDonors` records exactly one aggregate outcome, and it is a failure
exactly when every chunk produced a structurally valid batch response whose
donor list contributed nothing; a success is recorded whenever any chunk
contributed entries — including entries that are degraded defaults produced
by the per-chunk individual fallback, even when zero entities were actually
retrieved from the downstream service. -/
theorem aggregate_record_iff_contribution (donorIds : List String)
    (batchOp : List String → Nat → Except String (Option (Envelope (List Donor))))
    (indivOp : String → Nat → Except String (Option (Envelope Donor)))
    (now : Int) (s : BreakerState)
    (hne : donorIds ≠ []) (hallow : (checkCircuit now s).1 = true) :
    (getDonors donorIds batchOp indivOp now s).aggregateRecord =
      some ((chunkArray (uniqueFirst donorIds) 20).any
        (chunkContributes batchOp)) := by
  rcases hcc : checkCircuit now s with ⟨b, s1⟩
  have hb : b = true := by rw [hcc] at hallow; exact hallow
  subst hb
  unfold getDonors
  rw [if_neg hne]
  dsimp only
  rw [hcc]
  dsimp only
  congr 1
  by_cases hm : (processChunks batchOp indivOp now
      (chunkArray (uniqueFirst donorIds) 20) [] s1).1 = []
  · have hall := (processChunks_eq_nil batchOp indivOp now
      (chunkArray (uniqueFirst donorIds) 20) [] s1).mp hm
    have hany : (chunkArray (uniqueFirst donorIds) 20).any
        (chunkContributes batchOp) = false := by
      rw [List.any_eq_false]
      intro c hcm
      simp [hall.2 c hcm]
    rw [hany, hm]
    rfl
  · have hlen : 0 < (processChunks batchOp indivOp now
        (chunkArray (uniqueFirst donorIds) 20) [] s1).1.length :=
      List.length_pos.mpr hm
    have hany : (chunkArray (uniqueFirst donorIds) 20).any
        (chunkContributes batchOp) = true := by
      by_contra hfalse
      apply hm
      apply (processChunks_eq_nil batchOp indivOp now
        (chunkArray (uniqueFirst donorIds) 20) [] s1).mpr
      refine ⟨rfl, fun c hcm => ?_⟩
      have hanyf : (chunkArray (uniqueFirst donorIds) 20).any
          (chunkContributes batchOp) = false := by
        cases hx : (chunkArray (uniqueFirst donorIds) 20).any
            (chunkContributes batchOp)
        · rfl
        · exact absurd hx hfalse
      have := List.any_eq_false.mp hanyf c hcm
      cases hy : chunkContributes batchOp c
      · rfl
      · exact absurd hy this
    rw [hany]
    simp [hlen]

/-- C9 witness: one failing chunk yields an aggregate record equal to the
contribution disjunction. -/
theorem aggregate_record_iff_contribution_witness :
    (getDonors ["a"] (fun _ _ => .error "down") (fun _ _ => .error "down") 0
      initialBreaker).aggregateRecord =
      some ((chunkArray (uniqueFirst ["a"]) 20).any
        (chunkContributes (fun _ _ => .error "down"))) :=
  aggregate_record_iff_contribution ["a"] (fun _ _ => .error "down")
    (fun _ _ => .error "down") 0 initialBreaker (by simp) rfl

/-- C9 counterexample: with every downstream call failing, the single
chunk's map is populated solely by fallback defaults, zero entities are
retrieved, yet the aggregate record is a success — refuting "success iff at
least one entity was actually retrieved". -/
theorem aggregate_success_with_defaults_cex :
    (getDonors ["a"] (fun _ _ => .error "down") (fun _ _ => .error "down") 0
      initialBreaker).aggregateRecord = some true ∧
    (getDonors ["a"] (fun _ _ => .error "down") (fun _ _ => .error "down") 0
      initialBreaker).retrieved = 0 := by
  decide

end DonationResilience
